import Mathlib

/-!
Verification of the Endgame OS memory-pipeline specification against a
shallow embedding of the repository's Python sources.

Conventions used throughout this development:
* SQL tables are lists of row structures; row order models insertion order
  (the claims settled here do not depend on `ORDER BY` clauses, which are
  therefore not modelled).
* `INSERT OR REPLACE` deletes the rows sharing the primary key and appends
  the new row; `INSERT OR IGNORE` appends only when no row shares the key.
* Python's `in` / SQL `LIKE '%x%'` substring tests are modelled by `hasSub`;
  `str.startswith` / `LIKE 'x%'` by `List.isPrefixOf` over the characters.
* External randomness (`uuid.uuid4()`) is modelled by an explicit supply of
  fresh identifiers, and external LLM responses by oracle parameters.
-/

namespace EndgameOS

/-! ## String helpers -/

/-- Substring test over character lists: Python's `pat in s` and SQL
`LIKE '%pat%'`. -/
def hasSub (pat : List Char) : List Char → Bool
  | [] => pat.isEmpty
  | c :: t => pat.isPrefixOf (c :: t) || hasSub pat t

/-- Substring test on strings. -/
def strHasSub (s pat : String) : Bool := hasSub pat.data s.data

/-- Python `str.startswith` / SQL `LIKE 'pat%'` on strings. -/
def strStarts (s pat : String) : Bool := pat.data.isPrefixOf s.data

/-! ## MD5 and the stable-id scheme

`GraphStore._get_stable_id` returns `con_` followed by the first sixteen hex
characters of the MD5 digest of the UTF-8 encoded name.  MD5 is implemented
below over `Nat` with explicit reductions modulo `2^32`. -/

def pow32 : Nat := 4294967296

def add32 (a b : Nat) : Nat := (a + b) % pow32

def not32 (a : Nat) : Nat := 4294967295 - a % pow32

def rotl32 (x s : Nat) : Nat :=
  ((x % pow32) * 2 ^ s) % pow32 + (x % pow32) / 2 ^ (32 - s)

def md5F (x y z : Nat) : Nat := Nat.lor (Nat.land x y) (Nat.land (not32 x) z)

def md5G (x y z : Nat) : Nat := Nat.lor (Nat.land x z) (Nat.land y (not32 z))

def md5H (x y z : Nat) : Nat := Nat.xor x (Nat.xor y z)

def md5I (x y z : Nat) : Nat := Nat.xor y (Nat.lor x (not32 z))

def md5S : List Nat :=
  [7, 12, 17, 22, 7, 12, 17, 22, 7, 12, 17, 22, 7, 12, 17, 22,
   5, 9, 14, 20, 5, 9, 14, 20, 5, 9, 14, 20, 5, 9, 14, 20,
   4, 11, 16, 23, 4, 11, 16, 23, 4, 11, 16, 23, 4, 11, 16, 23,
   6, 10, 15, 21, 6, 10, 15, 21, 6, 10, 15, 21, 6, 10, 15, 21]

def md5K : List Nat :=
  [3614090360, 3905402710, 606105819, 3250441966,
   4118548399, 1200080426, 2821735955, 4249261313,
   1770035416, 2336552879, 4294925233, 2304563134,
   1804603682, 4254626195, 2792965006, 1236535329,
   4129170786, 3225465664, 643717713, 3921069994,
   3593408605, 38016083, 3634488961, 3889429448,
   568446438, 3275163606, 4107603335, 1163531501,
   2850285829, 4243563512, 1735328473, 2368359562,
   4294588738, 2272392833, 1839030562, 4259657740,
   2763975236, 1272893353, 4139469664, 3200236656,
   681279174, 3936430074, 3572445317, 76029189,
   3654602809, 3873151461, 530742520, 3299628645,
   4096336452, 1126891415, 2878612391, 4237533241,
   1700485571, 2399980690, 4293915773, 2240044497,
   1873313359, 4264355552, 2734768916, 1309151649,
   4149444226, 3174756917, 718787259, 3951481745]

/-- UTF-8 encoding of a single code point (mirrors `str.encode('utf-8')`). -/
def utf8Char (c : Char) : List Nat :=
  let n := c.toNat
  if n < 128 then [n]
  else if n < 2048 then [192 + n / 64, 128 + n % 64]
  else if n < 65536 then [224 + n / 4096, 128 + (n / 64) % 64, 128 + n % 64]
  else [240 + n / 262144, 128 + (n / 4096) % 64, 128 + (n / 64) % 64, 128 + n % 64]

def utf8Bytes (s : String) : List Nat :=
  s.data.foldr (fun c acc => utf8Char c ++ acc) []

/-- Little-endian byte serialization of `x` on `n` bytes. -/
def toLEBytes : Nat → Nat → List Nat
  | 0, _ => []
  | n + 1, x => x % 256 :: toLEBytes n (x / 256)

/-- MD5 padding: a `0x80` byte, zeros to 56 mod 64, then the bit length on
eight little-endian bytes. -/
def md5Pad (msg : List Nat) : List Nat :=
  let k := (64 + 56 - (msg.length + 1) % 64) % 64
  msg ++ [128] ++ List.replicate k 0 ++ toLEBytes 8 ((msg.length * 8) % 2 ^ 64)

/-- Split a padded message into 64-byte blocks (the input length is a
multiple of 64; the fuel argument bounds the recursion). -/
def md5Blocks : Nat → List Nat → List (List Nat)
  | 0, _ => []
  | _, [] => []
  | fuel + 1, bytes => bytes.take 64 :: md5Blocks fuel (bytes.drop 64)

/-- Word `g` (little-endian 32-bit) of a 64-byte block. -/
def blockWord (block : List Nat) (g : Nat) : Nat :=
  block.getD (4 * g) 0 + 256 * block.getD (4 * g + 1) 0 +
    65536 * block.getD (4 * g + 2) 0 + 16777216 * block.getD (4 * g + 3) 0

/-- One of the 64 MD5 rounds. -/
def md5Round (block : List Nat) (st : Nat × Nat × Nat × Nat) (i : Nat) :
    Nat × Nat × Nat × Nat :=
  let (a, b, c, d) := st
  let fg : Nat × Nat :=
    if i < 16 then (md5F b c d, i)
    else if i < 32 then (md5G b c d, (5 * i + 1) % 16)
    else if i < 48 then (md5H b c d, (3 * i + 5) % 16)
    else (md5I b c d, (7 * i) % 16)
  let tmp := add32 (add32 a fg.1) (add32 (md5K.getD i 0) (blockWord block fg.2))
  (d, add32 b (rotl32 tmp (md5S.getD i 0)), b, c)

/-- Process one 64-byte block. -/
def md5Block (st : Nat × Nat × Nat × Nat) (block : List Nat) :
    Nat × Nat × Nat × Nat :=
  let (a0, b0, c0, d0) := st
  let r := (List.range 64).foldl (md5Round block) st
  (add32 a0 r.1, add32 b0 r.2.1, add32 c0 r.2.2.1, add32 d0 r.2.2.2)

def hexDigit (n : Nat) : Char :=
  if n < 10 then Char.ofNat (48 + n) else Char.ofNat (87 + n % 16)

def byteHex (b : Nat) : List Char := [hexDigit (b / 16), hexDigit (b % 16)]

/-- Hex rendering of a 32-bit word, little-endian byte order as in
`hexdigest()`. -/
def wordHexLE (x : Nat) : List Char :=
  ((toLEBytes 4 x).foldr (fun b acc => byteHex b ++ acc) [])

/-- MD5 hex digest of a string's UTF-8 bytes. -/
def md5Hex (s : String) : String :=
  let bytes := md5Pad (utf8Bytes s)
  let init : Nat × Nat × Nat × Nat :=
    (1732584193, 4023233417, 2562383102, 271733878)
  let r := (md5Blocks (bytes.length / 64 + 1) bytes).foldl md5Block init
  String.mk (wordHexLE r.1 ++ wordHexLE r.2.1 ++ wordHexLE r.2.2.1 ++ wordHexLE r.2.2.2)

/-- `GraphStore._get_stable_id`: deterministic id for a named entity. -/
def getStableId (text : String) : String :=
  "con_" ++ ((md5Hex text).take 16)

/-! ## Relational data model

Rows of the `nodes` / `staging_nodes` tables (`graph_store.py`, `_init_db`).
The `nodes` primary key is `id` alone; the `edges` primary key is the
quadruple `(source, target, relation, user_id)`.  The staging tables have the
same keys.  `alignment_score` is stored as a rational. -/

structure NodeRow where
  id : String
  userId : String
  type : String
  name : String
  content : String
  attributes : String
  status : String
  sourceFile : String
  alignmentScore : Rat
  deriving DecidableEq

structure EdgeRow where
  source : String
  target : String
  relation : String
  userId : String
  deriving DecidableEq

/-- The four graph tables of `brain.db` that the claims touch. -/
structure StoreState where
  nodes : List NodeRow
  edges : List EdgeRow
  stagingNodes : List NodeRow
  stagingEdges : List EdgeRow
  deriving DecidableEq

def emptyStore : StoreState := ⟨[], [], [], []⟩

/-- SQLite `INSERT OR REPLACE` on a node table: rows sharing the `id`
primary key are removed, then the new row is appended. -/
def upsertNodeRow (r : NodeRow) (ns : List NodeRow) : List NodeRow :=
  ns.filter (fun n => n.id ≠ r.id) ++ [r]

def edgeKeyEq (a b : EdgeRow) : Bool :=
  a.source == b.source && a.target == b.target &&
    a.relation == b.relation && a.userId == b.userId

/-- SQLite `INSERT OR IGNORE` on an edge table: append only when no row has
the same `(source, target, relation, user_id)` key. -/
def insertIgnoreEdge (e : EdgeRow) (es : List EdgeRow) : List EdgeRow :=
  if es.any (edgeKeyEq e) then es else es ++ [e]

/-- A sequence of `INSERT OR REPLACE` statements (`executemany` / a Python
loop) over a node table. -/
def upsertNodesFold (rs : List NodeRow) (ns : List NodeRow) : List NodeRow :=
  rs.foldl (fun acc r => upsertNodeRow r acc) ns

/-- A sequence of `INSERT OR IGNORE` statements over an edge table. -/
def insertEdgesFold (rs : List EdgeRow) (es : List EdgeRow) : List EdgeRow :=
  rs.foldl (fun acc e => insertIgnoreEdge e acc) es

/-! ## GraphStore.add_to_staging -/

/-- An extracted node as handed to `add_to_staging` (a Python dict with
`id`, `type`, `name`, `content` and an `attributes` blob; the dict lookups
use the defaults `"Concept"`, `"Unknown"`, `""` and `{}`, which the callers
always populate, so the fields are modelled as plain strings). -/
structure InNode where
  id : String
  type : String
  name : String
  content : String
  attributes : String
  deriving DecidableEq

structure InEdge where
  source : String
  target : String
  relation : String
  deriving DecidableEq

/-- Row construction of `add_to_staging`: a `Vision` node's id is rewritten
to `vision_{user_id}`; otherwise a `Self`-typed node or one carrying the
sentinel id `SELF_NODE_ID` is skipped (`continue`). -/
def stageNodeRow (u sf : String) (n : InNode) : Option NodeRow :=
  if n.type == "Vision" then
    some ⟨"vision_" ++ u, u, n.type, n.name, n.content, n.attributes, "pending", sf, 0⟩
  else if n.type == "Self" || n.id == "SELF_NODE_ID" then
    none
  else
    some ⟨n.id, u, n.type, n.name, n.content, n.attributes, "pending", sf, 0⟩

/-- Edge construction of `add_to_staging`: endpoints equal to `SELF_NODE_ID`
are mapped back to the real `user_id`. -/
def stageEdgeRow (u : String) (e : InEdge) : EdgeRow :=
  ⟨if e.source == "SELF_NODE_ID" then u else e.source,
   if e.target == "SELF_NODE_ID" then u else e.target,
   e.relation, u⟩

/-- `GraphStore.add_to_staging`: insert-or-replace the prepared node rows
into `staging_nodes` and insert-or-ignore the prepared edge rows into
`staging_edges`.  The canonical tables are not touched. -/
def addToStaging (u : String) (nodes : List InNode) (edges : List InEdge)
    (sf : String) (st : StoreState) : StoreState :=
  { st with
    stagingNodes := upsertNodesFold (nodes.filterMap (stageNodeRow u sf)) st.stagingNodes
    stagingEdges := insertEdgesFold (edges.map (stageEdgeRow u)) st.stagingEdges }

/-! ## commit_staging_memories (api/memory.py) -/

/-- Id normalization applied when promoting a staged row to the canonical
table. -/
def commitNormId (u : String) (r : NodeRow) : String :=
  if r.type == "Vision" then "vision_" ++ u
  else if r.type == "Self" then u
  else r.id

/-- The canonical row written by the commit: the `INSERT OR REPLACE` column
list omits `status` and `alignment_score`, so the table defaults
(`'confirmed'`, `0.0`) apply. -/
def promoteNode (u : String) (r : NodeRow) : NodeRow :=
  ⟨commitNormId u r, u, r.type, r.name, r.content, r.attributes, "confirmed",
   r.sourceFile, 0⟩

/-- Branch of `commit_staging_memories` taken when `node_ids` is truthy. -/
def commitSubset (u : String) (ids : List String) (st : StoreState) : StoreState :=
  let sel := st.stagingNodes.filter (fun r => r.userId == u && ids.contains r.id)
  let selE := st.stagingEdges.filter
    (fun e => e.userId == u && ids.contains e.source && ids.contains e.target)
  { nodes := upsertNodesFold (sel.map (promoteNode u)) st.nodes
    edges := insertEdgesFold selE st.edges
    stagingNodes :=
      st.stagingNodes.filter (fun r => !(r.userId == u && ids.contains r.id))
    stagingEdges := st.stagingEdges }

/-- Branch taken when `node_ids` is `None` or the empty list: promote all of
the user's staged rows and clear both staging tables for that user. -/
def commitAll (u : String) (st : StoreState) : StoreState :=
  let sel := st.stagingNodes.filter (fun r => r.userId == u)
  let selE := st.stagingEdges.filter (fun e => e.userId == u)
  { nodes := upsertNodesFold (sel.map (promoteNode u)) st.nodes
    edges := insertEdgesFold selE st.edges
    stagingNodes := st.stagingNodes.filter (fun r => !(r.userId == u))
    stagingEdges := st.stagingEdges.filter (fun e => !(e.userId == u)) }

/-- `commit_staging_memories`: `request.get("node_ids")` followed by Python
truthiness checks (`if node_ids:`), so both `None` and `[]` commit
everything. -/
def commitStaging (u : String) (nodeIds : Option (List String))
    (st : StoreState) : StoreState :=
  match nodeIds with
  | some ids => if ids.isEmpty then commitAll u st else commitSubset u ids st
  | none => commitAll u st

/-! ## GraphStore._heal_vision_nodes (runs on store open) -/

/-- ASCII lower-casing of one character, as SQLite's default `LIKE`
comparison applies it (non-ASCII characters are compared verbatim). -/
def asciiLower (c : Char) : Char :=
  if 'A' ≤ c ∧ c ≤ 'Z' then Char.ofNat (c.toNat + 32) else c

/-- Test of the SQL pattern `LIKE 'vision_%'`.  In SQLite `LIKE`, `_`
matches exactly one arbitrary character, `%` any suffix, and letter
comparison is ASCII case-insensitive by default, so the pattern matches
every id of length at least seven whose first six characters ASCII-lowercase
to `vision` (for example `Vision_x` matches too). -/
def matchesVisionLike (s : String) : Bool :=
  decide (7 ≤ s.data.length) && (s.data.take 6).map asciiLower == "vision".data

/-- Edge rewrite of the healer: copy the edges with `source = old` (for the
row's user) to `target_id` via `INSERT OR IGNORE`, then delete the
originals. -/
def rewriteEdgesSource (old tgt u : String) (es : List EdgeRow) : List EdgeRow :=
  let copies := (es.filter (fun e => e.source == old && e.userId == u)).map
    (fun e => { e with source := tgt })
  (insertEdgesFold copies es).filter (fun e => !(e.source == old && e.userId == u))

/-- Same rewrite for the `target` endpoint. -/
def rewriteEdgesTarget (old tgt u : String) (es : List EdgeRow) : List EdgeRow :=
  let copies := (es.filter (fun e => e.target == old && e.userId == u)).map
    (fun e => { e with target := tgt })
  (insertEdgesFold copies es).filter (fun e => !(e.target == old && e.userId == u))

/-- Node outcome of a healer step that does not abort: if a row with the
canonical id already exists for the same user, delete the old row, otherwise
rename it to the canonical id.  This is proof infrastructure; the faithful
per-row step, including the `UPDATE` abort, is `healVisionStepChecked`. -/
def healNodeRows (old tgt u : String) (ns : List NodeRow) : List NodeRow :=
  if ns.any (fun n => n.id == tgt && n.userId == u) then
    ns.filter (fun n => !(n.id == old && n.userId == u))
  else
    ns.map (fun n => if n.id == old && n.userId == u then { n with id := tgt } else n)

/-- Non-abort outcome of one healer loop iteration (proof infrastructure,
see `healVisionStepChecked`). -/
def healVisionStep (p : List NodeRow × List EdgeRow) (r : NodeRow) :
    List NodeRow × List EdgeRow :=
  let tgt := "vision_" ++ r.userId
  (healNodeRows r.id tgt r.userId p.1,
   rewriteEdgesTarget r.id tgt r.userId (rewriteEdgesSource r.id tgt r.userId p.2))

/-- Faithful body of one healer loop iteration.  The edge rewrites always
execute first.  Then, if a row with the canonical id exists for the row's
user, the old row is deleted; otherwise the `UPDATE ... SET id = ?` rename
runs, and — since `nodes.id` is the primary key — it raises a UNIQUE
violation whenever some row (necessarily of another user, given the `id`
primary key makes rows per id unique) already holds the canonical id.  The
raise aborts the whole healing pass; the returned flag is `false` in that
case and the tables keep the statements already executed (the current row's
edge rewrites included), which the enclosing transaction then commits. -/
def healVisionStepChecked (p : List NodeRow × List EdgeRow) (r : NodeRow) :
    (List NodeRow × List EdgeRow) × Bool :=
  let tgt := "vision_" ++ r.userId
  let es := rewriteEdgesTarget r.id tgt r.userId (rewriteEdgesSource r.id tgt r.userId p.2)
  if p.1.any (fun n => n.id == tgt && n.userId == r.userId) then
    ((p.1.filter (fun n => !(n.id == r.id && n.userId == r.userId)), es), true)
  else if p.1.any (fun n => n.id == tgt) then
    ((p.1, es), false)
  else
    ((p.1.map (fun n => if n.id == r.id && n.userId == r.userId then { n with id := tgt }
        else n), es), true)

/-- Rows fetched by `SELECT id, user_id FROM ... WHERE type = 'Vision' AND id
NOT LIKE 'vision_%'`. -/
def healFetch (ns : List NodeRow) : List NodeRow :=
  ns.filter (fun n => n.type == "Vision" && !(matchesVisionLike n.id))

/-- Healer loop over one node/edge table pair: the offender list is fetched
once up front, the body runs on the evolving tables, and a UNIQUE abort
stops the loop, returning `false` with the state reached so far. -/
def healTablesRun : List NodeRow → List NodeRow × List EdgeRow →
    (List NodeRow × List EdgeRow) × Bool
  | [], p => (p, true)
  | r :: t, p =>
    if (healVisionStepChecked p r).2 then healTablesRun t (healVisionStepChecked p r).1
    else healVisionStepChecked p r

/-- `GraphStore._heal_vision_nodes`: the pass over the canonical tables and
then over the staging mirror.  Both loops sit inside one `try`, so an abort
during the canonical loop also skips the staging loop entirely. -/
def healVision (st : StoreState) : StoreState :=
  if (healTablesRun (healFetch st.nodes) (st.nodes, st.edges)).2 then
    ⟨(healTablesRun (healFetch st.nodes) (st.nodes, st.edges)).1.1,
     (healTablesRun (healFetch st.nodes) (st.nodes, st.edges)).1.2,
     (healTablesRun (healFetch st.stagingNodes) (st.stagingNodes, st.stagingEdges)).1.1,
     (healTablesRun (healFetch st.stagingNodes) (st.stagingNodes, st.stagingEdges)).1.2⟩
  else
    ⟨(healTablesRun (healFetch st.nodes) (st.nodes, st.edges)).1.1,
     (healTablesRun (healFetch st.nodes) (st.nodes, st.edges)).1.2,
     st.stagingNodes, st.stagingEdges⟩

/-! ## GraphStore.get_all_graph_data -/

/-- A node of the visualization payload.  The Python dict carries no
`user_id`; the `owner` field records the owning row of the backing table so
that the user-isolation property can be stated (`none` for the placeholder
ghost nodes fabricated when no backing row exists). -/
structure VizNode where
  id : String
  label : String
  type : String
  content : String
  owner : Option String
  deriving DecidableEq

/-- Type restriction of each view (the `staging` and `global` views take all
types). -/
def viewNodeOk (view : String) (n : NodeRow) : Bool :=
  if view == "strategic" then
    ["Vision", "Goal", "Project", "Task", "Action", "Self", "Insight"].contains n.type
  else if view == "people" || view == "social" then
    ["Person", "Organization", "Self"].contains n.type
  else true

def viewLimit (view : String) : Nat := if view == "global" then 2000 else 1000

def vizOfRow (n : NodeRow) : VizNode :=
  ⟨n.id, n.name, n.type, n.content, some n.userId⟩

/-- Ghost-node lookup: `SELECT ... FROM {node_table} WHERE id=?` — by id
only, with no `user_id` restriction. -/
def ghostLookup (table : List NodeRow) (x : String) : VizNode :=
  match table.find? (fun n => n.id == x) with
  | some n => vizOfRow n
  | none => ⟨x, x, "Concept (Linked)", "", none⟩

/-- Loop body over the fetched edges: auto-fill missing targets, then
missing sources, then record the link. -/
def ghostStep (table : List NodeRow) (acc : List VizNode × List String × List EdgeRow)
    (e : EdgeRow) : List VizNode × List String × List EdgeRow :=
  let (ns1, ex1) :=
    if acc.2.1.contains e.target then (acc.1, acc.2.1)
    else (acc.1 ++ [ghostLookup table e.target], acc.2.1 ++ [e.target])
  let (ns2, ex2) :=
    if ex1.contains e.source then (ns1, ex1)
    else (ns1 ++ [ghostLookup table e.source], ex1 ++ [e.source])
  (ns2, ex2, acc.2.2 ++ [e])

/-- `GraphStore.get_all_graph_data`: primary nodes filtered by `user_id` and
view type (the `ORDER BY` clauses, which only shuffle rows before the
`LIMIT`, are not modelled), then the user's edges touching the primary set,
then ghost auto-fill of missing endpoints.  Returns the node and link
lists. -/
def getAllGraphData (u view : String) (st : StoreState) :
    List VizNode × List EdgeRow :=
  let nodeTable := if view == "staging" then st.stagingNodes else st.nodes
  let edgeTable := if view == "staging" then st.stagingEdges else st.edges
  let primary := (nodeTable.filter
    (fun n => n.userId == u && viewNodeOk view n)).take (viewLimit view)
  let ids := primary.map (fun n => n.id)
  if ids.isEmpty then (primary.map vizOfRow, [])
  else
    let erows := (edgeTable.filter
      (fun e => e.userId == u && (ids.contains e.source || ids.contains e.target))).take 5000
    let r := erows.foldl (ghostStep nodeTable) (primary.map vizOfRow, ids, [])
    (r.1, r.2.2)

/-! ## IngestionService.process_deepseek_pipeline -/

/-- A node of the structured-extraction result (`extract_structured_memory_deepseek`
output), before id assignment. -/
structure DsInNode where
  id : String
  name : String
  type : String
  content : String
  deriving DecidableEq

/-- Id assignment of the service pipeline (first pass over the extracted
nodes): Vision and Self nodes get their fixed ids, every other node the
deterministic stable id of its name.  The extractor-provided `id` and the
`content` are ignored. -/
def deepseekAssignId (u : String) (n : DsInNode) : String :=
  if n.type == "Vision" then "vision_" ++ u
  else if n.type == "Self" then u
  else getStableId n.name

/-- Canonical row prepared by the pipeline for step 4 (the insert omits
`status` and `source_file`, so table defaults apply; the alignment score is
`1.0` for Vision/Self and `0.5` otherwise). -/
def deepseekNodeRow (u : String) (n : DsInNode) : NodeRow :=
  ⟨deepseekAssignId u n, u, n.type, n.name, n.content, "\x7b\x7d", "confirmed", "",
   if n.type == "Vision" || n.type == "Self" then 1 else 1 / 2⟩

/-- Step 4 of `process_deepseek_pipeline` (the graph write): the prepared
nodes and edges are written with `INSERT OR REPLACE` / `INSERT OR IGNORE`
directly into the canonical `nodes` and `edges` tables.  No staging table is
involved. -/
def deepseekGraphWrite (u : String) (allNodes : List DsInNode)
    (allEdges : List EdgeRow) (st : StoreState) : StoreState :=
  { st with
    nodes := upsertNodesFold (allNodes.map (deepseekNodeRow u)) st.nodes
    edges := insertEdgesFold allEdges st.edges }

/-! ## ETLPipeline._consolidate_results (id assignment block) -/

/-- A standard node as returned by the consolidation LLM call. -/
structure RawNode where
  name : String
  type : String
  content : String
  deriving DecidableEq

/-- Id assignment of `_consolidate_results`: every standard node receives
`str(uuid.uuid4())`.  The UUID generator is external randomness; it is
modelled as an explicit supply `fresh` handing out the value drawn by the
`i`-th call, so one run of the pipeline corresponds to one supply. -/
def consolidateAssign (standardNodes : List RawNode) (fresh : Nat → String) :
    List InNode :=
  standardNodes.enum.map (fun p =>
    ⟨fresh p.1, p.2.type, p.2.name, p.2.content, "\x7b\x7d"⟩)

/-- Phase 4 of `ETLPipeline.run`: the consolidated batch is handed to
`add_to_staging` (user id hardcoded in the source); nothing else is
written. -/
def etlLoad (u : String) (nodes : List InNode) (edges : List InEdge)
    (sourceFile : String) (st : StoreState) : StoreState :=
  addToStaging u nodes edges sourceFile st

/-! ## add_log and the nightly evolution cycle -/

/-- Attributes blob written by `GraphStore.add_log` for a `Log` node:
`json.dumps({"timestamp": t})`. -/
def logAttributes (t : String) : String :=
  "\x7b\"timestamp\": \"" ++ t ++ "\"\x7d"

/-- `GraphStore.add_log`: upsert of a `Log` node whose timestamp lives in
the attributes JSON (status and alignment take the `_upsert_node`
defaults). -/
def addLog (u logId logType content t : String) (st : StoreState) : StoreState :=
  { st with nodes :=
      (upsertNodeRow
        ⟨logId, u, "Log", logType, content, logAttributes t, "confirmed", "", 1 / 2⟩
        st.nodes) }

/-- Log selection of `EvolutionService.run_nightly_cycle`:
`SELECT content FROM nodes WHERE type='Log' AND user_id=? AND attributes
LIKE ?` with the pattern `%{yesterday}%` — a substring match over the whole
attributes JSON. -/
def nightlyLogs (u yesterday : String) (st : StoreState) : List String :=
  (st.nodes.filter (fun n =>
    n.type == "Log" && n.userId == u && strHasSub n.attributes yesterday)).map
    (fun n => n.content)

/-- An experience row as persisted by `create_experience`. -/
structure Experience where
  trigger : String
  insight : String
  strategy : String
  deriving DecidableEq

/-- Control flow of `run_nightly_cycle` after the log query: exit when no
log matched; otherwise run the reflector on the first fifty logs joined by
newlines and, for each reflection, persist an experience when the strategist
returns a non-empty strategy.  The two LLM passes are oracle parameters. -/
def nightlyCycle (u yesterday : String) (st : StoreState)
    (reflector : String → List (String × String))
    (strategist : String → String) : List Experience :=
  let logs := nightlyLogs u yesterday st
  if logs.isEmpty then []
  else
    (reflector (String.intercalate "\n" (logs.take 50))).filterMap (fun p =>
      let s := strategist p.2
      if s == "" then none else some ⟨p.1, p.2, s⟩)

/-! ## retrieve_memory_node (core/workflow.py), structured recall -/

/-- A graph node as consumed by the workflow from the visualization payload
(`label`, `type`, `content`, plus the dossier attribute rendered as
key/value pairs with list values already joined by `", "`). -/
structure WNode where
  label : String
  type : String
  content : String
  dossier : List (String × String)
  deriving DecidableEq

/-- `MemoryConfig.GRAPH_SEARCH_KEYWORDS`. -/
def graphSearchKeywords : List String :=
  ["项目", "任务", "进度", "工作", "目标", "计划", "实现", "愿景", "记得", "哪些", "清单"]

/-- `format_node_with_dossier` (the `created_at` suffix is always empty
because `get_all_graph_data` emits no `created_at` field). -/
def formatNodeWithDossier (n : WNode) : String :=
  if n.dossier.isEmpty then n.label ++ ": " ++ n.content
  else
    n.label ++ ": " ++ n.content ++ "\n" ++
      String.intercalate "\n" (n.dossier.map (fun p => "  - " ++ p.1 ++ ": " ++ p.2))

/-- Outcome of the structured-recall block: the project/task/goal section,
or the fallback concept section, or nothing appended. -/
inductive RecallSection where
  | structured (ps ts gs : List String)
  | concepts (cs : List String)
  | nothing
  deriving DecidableEq

/-- Gate of the structured-recall block:
`any(keyword in last_message for keyword in graph_keywords) or
len(last_message) > 2`. -/
def recallGate (msg : String) : Bool :=
  graphSearchKeywords.any (fun k => strHasSub msg k) || decide (2 < msg.length)

/-- Structured recall of `retrieve_memory_node`: inside the gate, the
Project/Task/Goal nodes are formatted and capped at 15/20/5; when all three
are empty the deep keyword match over `Concept` nodes (which also treats the
whole message as a keyword) supplies up to ten entries instead. -/
def structuredRecall (msg : String) (nodes : List WNode) : RecallSection :=
  if recallGate msg then
    let ps := (nodes.filter (fun n => n.type == "Project")).map formatNodeWithDossier
    let ts := (nodes.filter (fun n => n.type == "Task")).map formatNodeWithDossier
    let gs := (nodes.filter (fun n => n.type == "Goal")).map formatNodeWithDossier
    let cs := (nodes.filter (fun n => n.type == "Concept" &&
        (msg :: graphSearchKeywords).any (fun k =>
          strHasSub n.label k || strHasSub n.content k))).map
      (fun n => n.label ++ (if n.content ≠ "" then ": " ++ n.content else ""))
    if !ps.isEmpty || !ts.isEmpty || !gs.isEmpty then
      .structured (ps.take 15) (ts.take 20) (gs.take 5)
    else if !cs.isEmpty then .concepts (cs.take 10)
    else .nothing
  else .nothing

/-! ## FileProcessor._chunk_text -/

/-- Python `str.strip()`: drop whitespace at both ends. -/
def pyStrip (l : List Char) : List Char :=
  ((l.dropWhile Char.isWhitespace).reverse.dropWhile Char.isWhitespace).reverse

/-- `text.rfind('\n', a, b)`: index of the last newline `i` with
`a ≤ i < b`, if any. -/
def rfindNewline (l : List Char) (a b : Nat) : Option Nat :=
  let seg := (l.take b).drop a
  match seg.reverse.findIdx? (fun c => c == '\n') with
  | some j => some (a + (seg.length - 1 - j))
  | none => none

/-- Loop of `_chunk_text`.  The fuel argument only bounds the recursion; for
the configurations used by the repository (overlap strictly below half the
chunk size) every iteration advances `start` by at least one, so fuel
`l.length + 1` is never exhausted. -/
def chunkLoop (cs ov : Nat) (l : List Char) : Nat → Nat → List (List Char)
  | 0, _ => []
  | fuel + 1, start =>
    if start < l.length then
      let e0 := start + cs
      let e :=
        if e0 < l.length then
          match rfindNewline l (start + cs / 2) e0 with
          | some i => i + 1
          | none => e0
        else e0
      let chunk := pyStrip ((l.take e).drop start)
      let acc1 := if chunk.isEmpty then [] else [chunk]
      let next := e - ov
      if next ≥ l.length || l.length - next < cs / 4 then
        acc1 ++
          (if next < l.length then
            (let lc := pyStrip (l.drop next)
             if lc.isEmpty then [] else [lc])
          else [])
      else acc1 ++ chunkLoop cs ov l fuel next
    else []

/-- `FileProcessor._chunk_text` with chunk size `cs` and overlap `ov` (the
`FileProcessor()` used by the ingestion service is constructed with the
defaults 4000 and 400). -/
def chunkText (cs ov : Nat) (s : String) : List String :=
  if s.data.isEmpty then []
  else (chunkLoop cs ov s.data (s.data.length + 1) 0).map String.mk

/-! ## VectorStore dimension consistency

Modelled from the spec: the `VectorStore` the application actually runs —
the one whose interface the in-tree callers use (`add_documents` with a
caller-provided `embeddings` argument, `add_experience_vector`,
`search_experiences`, `similarity_search(query_vector=..., user_id=...)`,
and the `get_memory_service` accessor) — is not under `src/`;
`src/brain/app/services/memory/vector_store.py` is a stale revision exposing
none of those entry points.  The open-time dimension check of §4.2 of the
spec is therefore modelled from the spec's words: on open, if the documents
collection holds at least one record whose embedding dimension differs from
the configured target, destroy and recreate all three collections;
otherwise leave every collection untouched. -/

structure VecRecord where
  id : String
  embedding : List Int
  deriving DecidableEq

/-- The three collections (documents, concepts, experiences). -/
structure VectorStoreState where
  documents : List VecRecord
  concepts : List VecRecord
  experiences : List VecRecord
  deriving DecidableEq

/-- Modelled from the spec: `VectorStore._initialize_client` dimension
consistency (see the section comment above for what is missing from
`src/`). -/
def initializeClient (targetDim : Nat) (st : VectorStoreState) : VectorStoreState :=
  match st.documents with
  | [] => st
  | r :: _ => if r.embedding.length ≠ targetDim then ⟨[], [], []⟩ else st

/-! ## Concrete instances used by the counterexamples and witnesses -/

/-- Two users: `con_a` is a concept row owned by `alice` (stable ids collide
across users because the `nodes` primary key is `id` alone), and `bob` owns
a goal plus an edge pointing at `con_a` (edge inserts never check node
ownership, e.g. `upsert_relations_batch`). -/
def dbAliceBob : StoreState :=
  ⟨[⟨"b1", "bob", "Goal", "B goal", "", "\x7b\x7d", "confirmed", "", 1/2⟩,
    ⟨"con_a", "alice", "Concept", "Alice secret", "", "\x7b\x7d", "confirmed", "", 1/2⟩],
   [⟨"b1", "con_a", "RELATES_TO", "bob"⟩], [], []⟩

/-- An extracted project node as fed to the service ingestion pipeline. -/
def dsProj : DsInNode := ⟨"p1", "ProjX", "Project", "the project"⟩

/-- One staged task with a staged self-loop edge for user `u1`. -/
def stagedOne : StoreState :=
  ⟨[], [], [⟨"a1", "u1", "Task", "T", "", "\x7b\x7d", "pending", "f", 0⟩],
   [⟨"a1", "a1", "RELATES_TO", "u1"⟩]⟩

/-- Two `Self` rows and two `Vision` rows for the same user; the second
vision id `visionB_old` matches `LIKE 'vision_%'` (the `_` wildcard), so the
healer's fetch skips it. -/
def dupSelfVision : StoreState :=
  ⟨[⟨"u1", "u1", "Self", "Me", "", "\x7b\x7d", "confirmed", "", 1⟩,
    ⟨"self_old", "u1", "Self", "Me2", "", "\x7b\x7d", "confirmed", "", 1⟩,
    ⟨"vision_u1", "u1", "Vision", "V", "", "\x7b\x7d", "confirmed", "", 1⟩,
    ⟨"visionB_old", "u1", "Vision", "V2", "", "\x7b\x7d", "confirmed", "", 1⟩],
   [], [], []⟩

/-- A state with one genuinely healable vision node and an edge at it. -/
def healableVision : StoreState :=
  ⟨[⟨"old_v", "u9", "Vision", "V", "", "\x7b\x7d", "confirmed", "", 1⟩],
   [⟨"u9", "old_v", "OWNS", "u9"⟩], [], []⟩

/-- Consolidation input: a single standard node. -/
def snEndgame : List RawNode := [⟨"Endgame OS 重构", "Project", "d"⟩]

/-- Fresh-uuid supplies of two distinct ingestion runs. -/
def uuidRunA : Nat → String := fun _ => "8d4e2a10-0000-4000-8000-000000000001"

def uuidRunB : Nat → String := fun _ => "3b905c77-0000-4000-8000-000000000002"

/-- A `Log` node whose timestamp's date is 2026-01-05 but whose timestamp
string mentions 2026-10-11 further on. -/
def logStore : StoreState :=
  addLog "u1" "log1" "chat" "worked on X" "2026-01-05 rev 2026-10-11" emptyStore

/-- One project node as seen by the workflow. -/
def wProj : List WNode := [⟨"P1", "Project", "c", []⟩]

/-- The chunk-sized block (1000 characters — the chunk size the
`MemoryService` configures its `FileProcessor` with) and its trailing
200-character overlap remainder. -/
def blockA : String := String.mk (List.replicate 1000 'a')

def tailA : String := String.mk (List.replicate 200 'a')

/-- Input batch exercising every `add_to_staging` rewrite rule. -/
def stagingBatchNodes : List InNode :=
  [⟨"x", "Self", "n", "c", "\x7b\x7d"⟩,
   ⟨"SELF_NODE_ID", "Vision", "v", "c", "\x7b\x7d"⟩,
   ⟨"SELF_NODE_ID", "Concept", "k", "c", "\x7b\x7d"⟩,
   ⟨"t1", "Task", "t", "c", "\x7b\x7d"⟩]

def stagingBatchEdges : List InEdge := [⟨"SELF_NODE_ID", "t1", "OWNS"⟩]

/-- A vector store whose documents collection holds a three-dimensional
record. -/
def vec3Store : VectorStoreState := ⟨[⟨"d1", [1, 2, 3]⟩], [⟨"c1", [1]⟩], [⟨"e1", [1]⟩]⟩

/-- Extraction results differing only in the LLM-provided id and content. -/
def dsPair1 : DsInNode := ⟨"llm-id-1", "ProjX", "Project", "first wording"⟩

def dsPair2 : DsInNode := ⟨"llm-id-2", "ProjX", "Project", "second wording"⟩

/-! ## Helper lemmas on substrings -/

theorem isPrefixOf_append {pat l : List Char} (b : List Char)
    (h : pat.isPrefixOf l = true) : pat.isPrefixOf (l ++ b) = true := by
  induction pat generalizing l with
  | nil => simp [List.isPrefixOf]
  | cons p ps ih =>
    cases l with
    | nil => simp [List.isPrefixOf] at h
    | cons a as =>
      simp only [List.cons_append, List.isPrefixOf, Bool.and_eq_true] at h ⊢
      exact ⟨h.1, ih h.2⟩

theorem hasSub_nil_pat (l : List Char) : hasSub [] l = true := by
  cases l <;> simp [hasSub, List.isPrefixOf]

theorem hasSub_of_isPrefixOf {pat l : List Char}
    (h : pat.isPrefixOf l = true) : hasSub pat l = true := by
  cases l with
  | nil =>
    cases pat with
    | nil => simp [hasSub]
    | cons p ps => simp [List.isPrefixOf] at h
  | cons c t => simp [hasSub, h]

theorem hasSub_append_right {pat l : List Char} (b : List Char)
    (h : hasSub pat l = true) : hasSub pat (l ++ b) = true := by
  induction l with
  | nil =>
    simp only [hasSub, List.isEmpty_iff] at h
    subst h
    exact hasSub_nil_pat b
  | cons c t ih =>
    simp only [hasSub, Bool.or_eq_true] at h
    rcases h with h | h
    · simp only [List.cons_append, hasSub, Bool.or_eq_true]
      exact Or.inl (isPrefixOf_append b h)
    · simp only [List.cons_append, hasSub, Bool.or_eq_true]
      exact Or.inr (ih h)

theorem hasSub_append_left {pat l : List Char} (a : List Char)
    (h : hasSub pat l = true) : hasSub pat (a ++ l) = true := by
  induction a with
  | nil => simpa using h
  | cons c t ih =>
    simp only [List.cons_append, hasSub, Bool.or_eq_true]
    exact Or.inr ih

/-! ## Helper lemmas on the SQL write primitives -/

theorem mem_upsertNodeRow {q r : NodeRow} {ns : List NodeRow}
    (h : q ∈ upsertNodeRow r ns) : q ∈ ns ∨ q = r := by
  simp only [upsertNodeRow, List.mem_append, List.mem_filter,
    List.mem_singleton] at h
  rcases h with ⟨h1, _⟩ | h1
  · exact Or.inl h1
  · exact Or.inr h1

theorem self_mem_upsertNodeRow (r : NodeRow) (ns : List NodeRow) :
    r ∈ upsertNodeRow r ns := by
  simp [upsertNodeRow]

theorem upsertNodeRow_keeps_id {i : String} {ns : List NodeRow} (r : NodeRow)
    (h : ∃ q ∈ ns, q.id = i) : ∃ q ∈ upsertNodeRow r ns, q.id = i := by
  by_cases hir : i = r.id
  · exact ⟨r, self_mem_upsertNodeRow r ns, hir.symm⟩
  · obtain ⟨q, hq, hqi⟩ := h
    refine ⟨q, ?_, hqi⟩
    have hqr : q.id ≠ r.id := by rw [hqi]; exact hir
    simp only [upsertNodeRow, List.mem_append, List.mem_filter]
    exact Or.inl ⟨hq, by simpa using hqr⟩

theorem upsertNodesFold_keeps_id (rs : List NodeRow) {ns : List NodeRow}
    {i : String} (h : ∃ q ∈ ns, q.id = i) :
    ∃ q ∈ upsertNodesFold rs ns, q.id = i := by
  induction rs generalizing ns with
  | nil => exact h
  | cons a t ih => exact ih (upsertNodeRow_keeps_id a h)

theorem upsertNodesFold_id_mem (rs : List NodeRow) (ns : List NodeRow)
    {r : NodeRow} (h : r ∈ rs) : ∃ q ∈ upsertNodesFold rs ns, q.id = r.id := by
  induction rs generalizing ns with
  | nil => cases h
  | cons a t ih =>
    rcases List.mem_cons.mp h with h1 | h1
    · subst h1
      exact upsertNodesFold_keeps_id t ⟨r, self_mem_upsertNodeRow r ns, rfl⟩
    · exact ih _ h1

theorem upsertNodesFold_mem {rs ns : List NodeRow} {q : NodeRow}
    (h : q ∈ upsertNodesFold rs ns) : q ∈ ns ∨ q ∈ rs := by
  induction rs generalizing ns with
  | nil => exact Or.inl h
  | cons a t ih =>
    rcases ih h with h1 | h1
    · rcases mem_upsertNodeRow h1 with h2 | h2
      · exact Or.inl h2
      · exact Or.inr (h2 ▸ List.mem_cons_self a t)
    · exact Or.inr (List.mem_cons_of_mem a h1)

theorem edgeKeyEq_iff {a b : EdgeRow} :
    edgeKeyEq a b = true ↔
      a.source = b.source ∧ a.target = b.target ∧ a.relation = b.relation ∧
        a.userId = b.userId := by
  simp [edgeKeyEq, Bool.and_eq_true, and_assoc]

theorem edgeKeyEq_refl (e : EdgeRow) : edgeKeyEq e e = true := by
  simp [edgeKeyEq]

theorem mem_insertIgnoreEdge {q e : EdgeRow} {es : List EdgeRow}
    (h : q ∈ insertIgnoreEdge e es) : q ∈ es ∨ q = e := by
  unfold insertIgnoreEdge at h
  split at h
  · exact Or.inl h
  · simpa using h

theorem subset_insertIgnoreEdge (e : EdgeRow) (es : List EdgeRow) :
    es ⊆ insertIgnoreEdge e es := by
  unfold insertIgnoreEdge
  split
  · exact fun _ h => h
  · exact fun _ h => List.mem_append_left _ h

theorem insertIgnoreEdge_key (e : EdgeRow) (es : List EdgeRow) :
    ∃ q ∈ insertIgnoreEdge e es, edgeKeyEq e q = true := by
  unfold insertIgnoreEdge
  split
  · next hc => obtain ⟨q, hq, hk⟩ := List.any_eq_true.mp hc; exact ⟨q, hq, hk⟩
  · exact ⟨e, by simp, edgeKeyEq_refl e⟩

theorem insertEdgesFold_subset (L : List EdgeRow) (es : List EdgeRow) :
    es ⊆ insertEdgesFold L es := by
  induction L generalizing es with
  | nil => exact fun _ h => h
  | cons a t ih =>
    exact fun x hx => ih (insertIgnoreEdge a es) (subset_insertIgnoreEdge a es hx)

theorem insertEdgesFold_mem {L es : List EdgeRow} {q : EdgeRow}
    (h : q ∈ insertEdgesFold L es) : q ∈ es ∨ q ∈ L := by
  induction L generalizing es with
  | nil => exact Or.inl h
  | cons a t ih =>
    rcases ih h with h1 | h1
    · rcases mem_insertIgnoreEdge h1 with h2 | h2
      · exact Or.inl h2
      · exact Or.inr (h2 ▸ List.mem_cons_self a t)
    · exact Or.inr (List.mem_cons_of_mem a h1)

theorem insertEdgesFold_key (L : List EdgeRow) (es : List EdgeRow) {e : EdgeRow}
    (h : e ∈ L) : ∃ q ∈ insertEdgesFold L es, edgeKeyEq e q = true := by
  induction L generalizing es with
  | nil => cases h
  | cons a t ih =>
    rcases List.mem_cons.mp h with h1 | h1
    · subst h1
      obtain ⟨q, hq, hk⟩ := insertIgnoreEdge_key e es
      exact ⟨q, insertEdgesFold_subset t _ hq, hk⟩
    · exact ih _ h1

theorem filter_not_pred_eq_nil {α : Type} (l : List α) (p : α → Bool) :
    (l.filter (fun x => !(p x))).filter p = [] := by
  induction l with
  | nil => rfl
  | cons a t ih =>
    by_cases h : p a = true
    · simp [List.filter, h, ih]
    · simp only [Bool.not_eq_true] at h
      simp [List.filter, h, ih]

/-! ## C1: user isolation of get_all_graph_data -/

/-- C1: the claim fails on the code.  In `dbAliceBob` every edge row and
every primary node of the query user `bob` carries `user_id = "bob"`, yet
`GetGraphData("bob", "global")` returns the node `con_a`, whose backing row
belongs to `alice`: the ghost-node auto-fill queries
`SELECT ... FROM nodes WHERE id=?` with no `user_id` restriction, unlike
every other query in the same function. -/
theorem getAllGraphData_returns_foreign_row :
    (dbAliceBob.edges.all (fun e => e.userId == "bob")) = true ∧
    ((getAllGraphData "bob" "global" dbAliceBob).1.any
      (fun v => v.owner == some "alice")) = true ∧
    (dbAliceBob.nodes.filter (fun n => n.id == "con_a")).all
      (fun n => n.userId == "alice") = true := by
  refine ⟨by decide, by decide, by decide⟩

/-! ## C3: commit with an explicit id list -/

/-- C3: the claim fails on the code.  In `stagedOne` the set of all staged
node ids of `u1` is exactly `["a1"]`; committing with that explicit list
leaves `staging_edges` non-empty, because only the `node_ids`-is-falsy
branch deletes staged edges. -/
theorem commitStaging_all_ids_leaves_staged_edges :
    ((stagedOne.stagingNodes.filter (fun r => r.userId == "u1")).map
      (fun r => r.id)) = ["a1"] ∧
    (commitStaging "u1" (some ["a1"]) stagedOne).stagingEdges ≠ [] := by
  exact ⟨by decide, by decide⟩

/-! ## C4: the self-healing pass -/

/-- C4: the claim fails on the code.  `dupSelfVision` holds two `Self` rows
and two `Vision` rows for user `u1`; the healing pass leaves the state
entirely unchanged, because `Self` nodes are never healed and the second
vision id `visionB_old` matches `LIKE 'vision_%'` (whose `_` is a
single-character wildcard), so more than one `Self` node and more than one
`Vision` node survive the pass. -/
theorem healVision_keeps_duplicate_self_and_vision :
    healVision dupSelfVision = dupSelfVision ∧
    ((dupSelfVision.nodes.filter
      (fun n => n.type == "Self" && n.userId == "u1")).length = 2) ∧
    ((dupSelfVision.nodes.filter
      (fun n => n.type == "Vision" && n.userId == "u1")).length = 2) := by
  exact ⟨by decide, by decide, by decide⟩

/-! ## C5: determinism of ingestion ids -/

/-- C5: the claim fails on the code.  The consolidation step of the staging
pipeline (`_consolidate_results`) assigns `str(uuid.uuid4())` to every
standard node, so two ingestion runs of the same file — modelled by the same
input with the fresh-uuid supplies of the two runs — produce different
staged node ids, and neither id is the `con_`-prefixed stable id. -/
theorem consolidateAssign_ids_differ_across_runs :
    ((consolidateAssign snEndgame uuidRunA).map (fun n => n.id)) ≠
      ((consolidateAssign snEndgame uuidRunB).map (fun n => n.id)) ∧
    (((consolidateAssign snEndgame uuidRunA).map (fun n => n.id)).all
      (fun i => !(strStarts i "con_"))) = true := by
  exact ⟨by decide, by decide⟩

/-! ## C7: log selection of the nightly cycle -/

/-- C7: the claim fails on the code.  The nightly query matches
`attributes LIKE '%{yesterday}%'` — a substring match — so the log of
`logStore`, whose timestamp date is `2026-01-05` (the date-prefix of its
timestamp is not yesterday), is nevertheless selected because yesterday's
date appears later inside the timestamp string. -/
theorem nightlyLogs_picks_foreign_day_log :
    nightlyLogs "u1" "2026-10-11" logStore = ["worked on X"] ∧
    strStarts "2026-01-05 rev 2026-10-11" "2026-10-11" = false := by
  exact ⟨by decide, by decide⟩

/-! ## C8: gating of the structured-recall section -/

/-- C8: the claim fails on the code.  The query `"hello"` contains no
configured graph keyword, yet the structured-recall section is produced,
because the gate is `any(keyword in message) or len(message) > 2`. -/
theorem structuredRecall_fires_without_keyword :
    structuredRecall "hello" wProj = .structured ["P1: c"] [] [] ∧
    (graphSearchKeywords.any (fun k => strHasSub "hello" k)) = false := by
  exact ⟨by decide, by decide⟩

/-! ## C9: chunker boundary behavior -/

set_option maxRecDepth 1000000 in
/-- C9: the claim fails on the code.  A non-empty block whose length equals
the configured chunk size (here 1000, the size `MemoryService` configures)
yields two chunks, not one: the block itself plus its trailing
overlap-sized remainder, because after the first slice `start` moves to
`chunk_size - overlap` and the tail branch appends the rest. -/
theorem chunkText_block_gives_two_chunks :
    (chunkText 1000 200 blockA).length ≠ 1 := by
  decide

set_option maxRecDepth 1000000 in
/-- C9 (amended): the chunker returns the empty list on the empty string,
and on a chunk-sized non-whitespace block (1000 characters at the
`MemoryService` configuration) it returns exactly the block followed by its
trailing 200-character overlap remainder. -/
theorem chunkText_boundary_behavior :
    chunkText 1000 200 "" = [] ∧
    chunkText 1000 200 blockA = [blockA, tailA] := by
  exact ⟨by decide, by decide⟩

/-! ## C2: what the ingestion load step writes -/

set_option maxRecDepth 100000 in
/-- C2: the claim fails on the code.  The graph-write step of the upload
ingestion path (`IngestionService.process_deepseek_pipeline`, step 4)
inserts the consolidated nodes directly into the canonical `nodes` table
while both staging tables stay empty — so the canonical graph shows the new
node before any `CommitStaging`. -/
theorem deepseekWrite_touches_canonical :
    (deepseekGraphWrite "u1" [dsProj] [] emptyStore).nodes ≠ [] ∧
    (deepseekGraphWrite "u1" [dsProj] [] emptyStore).stagingNodes = [] ∧
    (deepseekGraphWrite "u1" [dsProj] [] emptyStore).stagingEdges = [] := by
  exact ⟨by decide, by decide, by decide⟩

/-- C2 (amended): the `ETLPipeline.run` load step hands the consolidated
batch to `AddToStaging` and leaves the canonical `nodes` and `edges` tables
untouched, and every consolidated node that is not skipped by the staging
rules lands in `staging_nodes` under its (Vision-normalized) id.  That load
step writes no vectors at all (the pipeline's only vector-store use is the
reset inside `_clear_data`); the document and node vectors of the spec's
load step are written by the service pipeline invoked by the upload API,
which also writes its nodes and edges into the canonical tables directly
(see the counterexample). -/
theorem etlLoad_frames_canonical :
    ∀ (u sf : String) (nodes : List InNode) (edges : List InEdge) (st : StoreState),
    (etlLoad u nodes edges sf st).nodes = st.nodes ∧
    (etlLoad u nodes edges sf st).edges = st.edges ∧
    (∀ n ∈ nodes, n.type ≠ "Self" → n.id ≠ "SELF_NODE_ID" →
      ∃ q ∈ (etlLoad u nodes edges sf st).stagingNodes,
        q.id = (if n.type = "Vision" then "vision_" ++ u else n.id)) := by
  intro u sf nodes edges st
  refine ⟨rfl, rfl, ?_⟩
  intro n hn hself hsent
  have hrow : ∃ row, stageNodeRow u sf n = some row ∧
      row.id = (if n.type = "Vision" then "vision_" ++ u else n.id) := by
    by_cases hv : n.type = "Vision"
    · refine ⟨⟨"vision_" ++ u, u, n.type, n.name, n.content, n.attributes,
        "pending", sf, 0⟩, ?_, ?_⟩
      · simp [stageNodeRow, hv]
      · simp [hv]
    · refine ⟨⟨n.id, u, n.type, n.name, n.content, n.attributes,
        "pending", sf, 0⟩, ?_, ?_⟩
      · simp [stageNodeRow, hv, hself, hsent]
      · simp [hv]
  obtain ⟨row, hr, hid⟩ := hrow
  have hmem : row ∈ nodes.filterMap (stageNodeRow u sf) :=
    List.mem_filterMap.mpr ⟨n, hn, hr⟩
  obtain ⟨q, hq, hqid⟩ := upsertNodesFold_id_mem _ st.stagingNodes hmem
  exact ⟨q, hq, by rw [hqid, hid]⟩

/-- C2 witness: the amended theorem applied to the concrete staging batch on
the empty store. -/
theorem etlLoad_frames_canonical_witness :
    (etlLoad "u1" stagingBatchNodes stagingBatchEdges "f" emptyStore).nodes =
      emptyStore.nodes ∧
    ∃ q ∈ (etlLoad "u1" stagingBatchNodes stagingBatchEdges "f"
        emptyStore).stagingNodes,
      q.id = (if ("Task" : String) = "Vision" then "vision_" ++ "u1" else "t1") :=
  ⟨(etlLoad_frames_canonical "u1" "f" stagingBatchNodes stagingBatchEdges
      emptyStore).1,
   (etlLoad_frames_canonical "u1" "f" stagingBatchNodes stagingBatchEdges
      emptyStore).2.2 ⟨"t1", "Task", "t", "c", "\x7b\x7d"⟩ (by decide) (by decide)
      (by decide)⟩

/-! ## C5 (amended): determinism on the service path -/

/-- C5 (amended): `GraphStore._get_stable_id` is a pure function of the
name, and the id assignment of `process_deepseek_pipeline` derives the id of
every non-Self/Vision entity from the canonical name alone — the
LLM-provided id and the content are ignored — so re-processing the same
extraction yields the same canonical row ids; the staging consolidation
path, by contrast, draws fresh UUIDs (see the counterexample). -/
theorem deepseekAssignId_deterministic :
    ∀ (u : String) (a b : DsInNode), a.name = b.name → a.type = b.type →
    a.type ≠ "Self" → a.type ≠ "Vision" →
    deepseekAssignId u a = getStableId a.name ∧
    deepseekAssignId u a = deepseekAssignId u b := by
  intro u a b hname htype hself hvision
  constructor
  · simp [deepseekAssignId, hself, hvision]
  · simp [deepseekAssignId, hself, hvision, hname, ← htype]

/-- C5 witness: two extraction results differing only in LLM-provided id and
content map to the same stable id. -/
theorem deepseekAssignId_deterministic_witness :
    dsPair1.name = dsPair2.name ∧
    deepseekAssignId "u1" dsPair1 = getStableId dsPair1.name ∧
    deepseekAssignId "u1" dsPair1 = deepseekAssignId "u1" dsPair2 :=
  ⟨rfl,
   (deepseekAssignId_deterministic "u1" dsPair1 dsPair2 rfl rfl (by decide)
      (by decide)).1,
   (deepseekAssignId_deterministic "u1" dsPair1 dsPair2 rfl rfl (by decide)
      (by decide)).2⟩

/-! ## C6: dimension consistency of the vector store -/

/-- C6 (spec-modelled): on open, when the documents collection holds at
least one record whose dimension differs from the configured target, all
three collections are destroyed and recreated; in every other case —
matching dimension or an empty documents collection — the store is left
exactly as it was, so the reset is the only destructive action of the open
path. -/
theorem initializeClient_dimension_reset :
    ∀ (d : Nat) (st : VectorStoreState),
    (∀ r rest, st.documents = r :: rest → r.embedding.length ≠ d →
       initializeClient d st = ⟨[], [], []⟩) ∧
    (∀ r rest, st.documents = r :: rest → r.embedding.length = d →
       initializeClient d st = st) ∧
    (st.documents = [] → initializeClient d st = st) := by
  intro d st
  refine ⟨?_, ?_, ?_⟩
  · intro r rest hdoc hne
    unfold initializeClient
    rw [hdoc]
    simp [hne]
  · intro r rest hdoc he
    unfold initializeClient
    rw [hdoc]
    simp [he]
  · intro hdoc
    unfold initializeClient
    rw [hdoc]

/-- C6 witness: opening a three-dimensional store with target 512 resets it;
with target 3 it is preserved. -/
theorem initializeClient_dimension_reset_witness :
    initializeClient 512 vec3Store = ⟨[], [], []⟩ ∧
    initializeClient 3 vec3Store = vec3Store :=
  ⟨(initializeClient_dimension_reset 512 vec3Store).1 ⟨"d1", [1, 2, 3]⟩ []
      rfl (by decide),
   (initializeClient_dimension_reset 3 vec3Store).2.1 ⟨"d1", [1, 2, 3]⟩ []
      rfl (by decide)⟩

/-! ## C7 (amended): nightly selection characterized -/

/-- C7 (amended): the nightly cycle selects exactly the user's `Log` nodes
whose attributes JSON contains yesterday's date as a substring; every log
whose timestamp starts with yesterday's date is therefore selected (for
ISO date-prefixed timestamps the two coincide), and when no log matches the
cycle exits producing no experiences. -/
theorem nightlyCycle_selection :
    ∀ (u y : String) (st : StoreState)
      (reflector : String → List (String × String)) (strategist : String → String),
    (∀ c, c ∈ nightlyLogs u y st ↔
       ∃ n ∈ st.nodes, n.type = "Log" ∧ n.userId = u ∧
         strHasSub n.attributes y = true ∧ n.content = c) ∧
    (∀ t, strStarts t y = true → strHasSub (logAttributes t) y = true) ∧
    (nightlyLogs u y st = [] → nightlyCycle u y st reflector strategist = []) := by
  intro u y st reflector strategist
  refine ⟨?_, ?_, ?_⟩
  · intro c
    simp only [nightlyLogs]
    constructor
    · intro hc
      obtain ⟨n, hnf, hcont⟩ := List.mem_map.mp hc
      obtain ⟨hmem, hpred⟩ := List.mem_filter.mp hnf
      simp only [Bool.and_eq_true, beq_iff_eq] at hpred
      exact ⟨n, hmem, hpred.1.1, hpred.1.2, hpred.2, hcont⟩
    · rintro ⟨n, hmem, ht, hu, hs, hc⟩
      refine List.mem_map.mpr ⟨n, List.mem_filter.mpr ⟨hmem, ?_⟩, hc⟩
      simp only [Bool.and_eq_true, beq_iff_eq]
      exact ⟨⟨ht, hu⟩, hs⟩
  · intro t ht
    have hdata : (logAttributes t).data =
        ("\x7b\"timestamp\": \"".data ++ t.data) ++ "\"\x7d".data := by
      simp [logAttributes]
    unfold strHasSub
    rw [hdata]
    exact hasSub_append_right _
      (hasSub_append_left _ (hasSub_of_isPrefixOf ht))
  · intro h
    simp [nightlyCycle, h]

/-- C7 witness: a timestamp that starts with yesterday's date is selected by
the substring match. -/
theorem nightlyCycle_selection_witness :
    strStarts "2026-10-11T09:00" "2026-10-11" = true ∧
    strHasSub (logAttributes "2026-10-11T09:00") "2026-10-11" = true :=
  ⟨by decide,
   (nightlyCycle_selection "u1" "2026-10-11" emptyStore (fun _ => [])
      (fun _ => "")).2.1 "2026-10-11T09:00" (by decide)⟩

/-! ## C8 (amended): structured recall characterized -/

/-- C8 (amended): the structured-recall section is produced exactly under
the gate "some graph keyword occurs in the query, or the query is longer
than two characters"; inside it, at most 15 projects, 20 tasks and 5 goals
are listed, and the keyword-matched concept fallback (at most ten entries)
is used only when the graph holds no Project, Task or Goal node at all. -/
theorem structuredRecall_behavior :
    ∀ (msg : String) (nodes : List WNode),
    (recallGate msg = false → structuredRecall msg nodes = .nothing) ∧
    (structuredRecall msg nodes ≠ .nothing → recallGate msg = true) ∧
    (∀ ps ts gs, structuredRecall msg nodes = .structured ps ts gs →
       ps.length ≤ 15 ∧ ts.length ≤ 20 ∧ gs.length ≤ 5) ∧
    (∀ cs, structuredRecall msg nodes = .concepts cs →
       nodes.filter (fun n => n.type == "Project") = [] ∧
       nodes.filter (fun n => n.type == "Task") = [] ∧
       nodes.filter (fun n => n.type == "Goal") = [] ∧ cs.length ≤ 10) := by
  intro msg nodes
  refine ⟨?_, ?_, ?_, ?_⟩
  · intro hg
    simp [structuredRecall, hg]
  · intro hne
    cases hgate : recallGate msg with
    | true => rfl
    | false => exact absurd (by simp [structuredRecall, hgate]) hne
  · intro ps ts gs heq
    unfold structuredRecall at heq
    dsimp only at heq
    split at heq
    · split at heq
      · injection heq with h1 h2 h3
        subst h1; subst h2; subst h3
        exact ⟨List.length_take_le 15 _, List.length_take_le 20 _,
          List.length_take_le 5 _⟩
      · split at heq
        · cases heq
        · cases heq
    · cases heq
  · intro cs heq
    unfold structuredRecall at heq
    dsimp only at heq
    split at heq
    · split at heq
      · cases heq
      · split at heq
        · next hcond hcs =>
          injection heq with h1
          subst h1
          simp only [Bool.or_eq_true, Bool.not_eq_true', not_or,
            Bool.not_eq_false] at hcond
          refine ⟨?_, ?_, ?_, List.length_take_le 10 _⟩
          · exact List.map_eq_nil_iff.mp (List.isEmpty_iff.mp hcond.1.1)
          · exact List.map_eq_nil_iff.mp (List.isEmpty_iff.mp hcond.1.2)
          · exact List.map_eq_nil_iff.mp (List.isEmpty_iff.mp hcond.2)
        · cases heq
    · cases heq

/-- C8 witness: the amended theorem applied at a concrete query and graph:
the structured section produced for `"hello"` over one project respects the
caps. -/
theorem structuredRecall_behavior_witness :
    structuredRecall "hello" wProj = .structured ["P1: c"] [] [] ∧
    (["P1: c"].length ≤ 15 ∧ ([] : List String).length ≤ 20 ∧
      ([] : List String).length ≤ 5) :=
  ⟨by decide,
   (structuredRecall_behavior "hello" wProj).2.2.1 ["P1: c"] [] [] (by decide)⟩

/-! ## C3 (amended): commit behavior in both branches -/

/-- C3 (amended): with `node_ids` omitted (or empty) the commit empties both
staging tables for the user and every staged node (under its
Vision/Self-normalized id) and every staged edge appears in the canonical
tables; with an explicit non-empty id list — even one covering every staged
node — only the listed nodes and the edges with both endpoints in the list
are promoted, and `staging_edges` is left untouched. -/
theorem commitStaging_behavior :
    ∀ (u : String) (st : StoreState),
    ((commitStaging u none st).stagingNodes.filter (fun r => r.userId == u) = [] ∧
     (commitStaging u none st).stagingEdges.filter (fun e => e.userId == u) = []) ∧
    (∀ r ∈ st.stagingNodes, r.userId = u →
       ∃ q ∈ (commitStaging u none st).nodes, q.id = commitNormId u r) ∧
    (∀ e ∈ st.stagingEdges, e.userId = u →
       ∃ q ∈ (commitStaging u none st).edges, edgeKeyEq e q = true) ∧
    (∀ ids : List String, ids ≠ [] →
       (commitStaging u (some ids) st).stagingEdges = st.stagingEdges ∧
       (∀ e ∈ st.stagingEdges, e.userId = u → e.source ∈ ids → e.target ∈ ids →
          ∃ q ∈ (commitStaging u (some ids) st).edges, edgeKeyEq e q = true) ∧
       (∀ q ∈ (commitStaging u (some ids) st).edges,
          q ∈ st.edges ∨ (q ∈ st.stagingEdges ∧ q.userId = u ∧
            q.source ∈ ids ∧ q.target ∈ ids))) := by
  intro u st
  refine ⟨⟨?_, ?_⟩, ?_, ?_, ?_⟩
  · exact filter_not_pred_eq_nil st.stagingNodes (fun r => r.userId == u)
  · exact filter_not_pred_eq_nil st.stagingEdges (fun e => e.userId == u)
  · intro r hr hu
    have hsel : r ∈ st.stagingNodes.filter (fun x => x.userId == u) :=
      List.mem_filter.mpr ⟨hr, by simp [hu]⟩
    have hmap : promoteNode u r ∈
        (st.stagingNodes.filter (fun x => x.userId == u)).map (promoteNode u) :=
      List.mem_map.mpr ⟨r, hsel, rfl⟩
    exact upsertNodesFold_id_mem _ st.nodes hmap
  · intro e he hu
    have hsel : e ∈ st.stagingEdges.filter (fun x => x.userId == u) :=
      List.mem_filter.mpr ⟨he, by simp [hu]⟩
    exact insertEdgesFold_key _ st.edges hsel
  · intro ids hne
    have hred : commitStaging u (some ids) st = commitSubset u ids st := by
      cases ids with
      | nil => exact absurd rfl hne
      | cons a t => rfl
    rw [hred]
    refine ⟨rfl, ?_, ?_⟩
    · intro e he hu hs ht
      have hsel : e ∈ st.stagingEdges.filter
          (fun x => x.userId == u && ids.contains x.source && ids.contains x.target) :=
        List.mem_filter.mpr ⟨he, by simp [hu, hs, ht]⟩
      exact insertEdgesFold_key _ st.edges hsel
    · intro q hq
      rcases insertEdgesFold_mem hq with h1 | h1
      · exact Or.inl h1
      · obtain ⟨hmem, hpred⟩ := List.mem_filter.mp h1
        simp only [Bool.and_eq_true, beq_iff_eq] at hpred
        exact Or.inr ⟨hmem, hpred.1.1,
          List.mem_of_elem_eq_true hpred.1.2, List.mem_of_elem_eq_true hpred.2⟩

/-- C3 witness: committing with `node_ids = null` on the concrete staged
state promotes the staged task. -/
theorem commitStaging_behavior_witness :
    (⟨"a1", "u1", "Task", "T", "", "\x7b\x7d", "pending", "f", 0⟩ : NodeRow) ∈
      stagedOne.stagingNodes ∧
    ∃ q ∈ (commitStaging "u1" none stagedOne).nodes,
      q.id = commitNormId "u1" ⟨"a1", "u1", "Task", "T", "", "\x7b\x7d", "pending", "f", 0⟩ :=
  ⟨by decide,
   (commitStaging_behavior "u1" stagedOne).2.1
     ⟨"a1", "u1", "Task", "T", "", "\x7b\x7d", "pending", "f", 0⟩ (by decide) rfl⟩

/-! ## Lemmas for the healing pass -/

theorem matchesVisionLike_canonical (u : String) :
    matchesVisionLike ("vision_" ++ u) = true := by
  have hd : ("vision_" ++ u).data =
      'v' :: 'i' :: 's' :: 'i' :: 'o' :: 'n' :: '_' :: u.data := by
    rw [String.data_append]
    rfl
  unfold matchesVisionLike
  rw [Bool.and_eq_true]
  constructor
  · rw [hd]
    simp only [List.length_cons]
    exact decide_eq_true (by omega)
  · rw [hd]
    rfl

theorem visionId_ne_sentinel (u : String) : ("vision_" ++ u) ≠ "SELF_NODE_ID" := by
  intro h
  have hd := congrArg String.data h
  rw [String.data_append] at hd
  have h1 : ("vision_" : String).data = ['v', 'i', 's', 'i', 'o', 'n', '_'] := rfl
  have h2 : ("SELF_NODE_ID" : String).data =
      ['S', 'E', 'L', 'F', '_', 'N', 'O', 'D', 'E', '_', 'I', 'D'] := rfl
  rw [h1, h2] at hd
  simp only [List.cons_append, List.cons.injEq] at hd
  exact absurd hd.1 (by decide)

theorem mem_rewriteEdgesSource {old tgt u : String} {es : List EdgeRow}
    {q : EdgeRow} (h : q ∈ rewriteEdgesSource old tgt u es) :
    (q ∈ es ∨ ∃ e ∈ es, (e.source = old ∧ e.userId = u) ∧
      q = { e with source := tgt }) ∧ ¬(q.source = old ∧ q.userId = u) := by
  unfold rewriteEdgesSource at h
  obtain ⟨hmem, hpred⟩ := List.mem_filter.mp h
  constructor
  · rcases insertEdgesFold_mem hmem with h1 | h1
    · exact Or.inl h1
    · obtain ⟨e, hef, heq⟩ := List.mem_map.mp h1
      obtain ⟨he, hep⟩ := List.mem_filter.mp hef
      simp only [Bool.and_eq_true, beq_iff_eq] at hep
      exact Or.inr ⟨e, he, hep, heq.symm⟩
  · intro hc
    have hb : (q.source == old && q.userId == u) = true := by simp [hc.1, hc.2]
    rw [hb] at hpred
    simp at hpred

theorem mem_rewriteEdgesTarget {old tgt u : String} {es : List EdgeRow}
    {q : EdgeRow} (h : q ∈ rewriteEdgesTarget old tgt u es) :
    (q ∈ es ∨ ∃ e ∈ es, (e.target = old ∧ e.userId = u) ∧
      q = { e with target := tgt }) ∧ ¬(q.target = old ∧ q.userId = u) := by
  unfold rewriteEdgesTarget at h
  obtain ⟨hmem, hpred⟩ := List.mem_filter.mp h
  constructor
  · rcases insertEdgesFold_mem hmem with h1 | h1
    · exact Or.inl h1
    · obtain ⟨e, hef, heq⟩ := List.mem_map.mp h1
      obtain ⟨he, hep⟩ := List.mem_filter.mp hef
      simp only [Bool.and_eq_true, beq_iff_eq] at hep
      exact Or.inr ⟨e, he, hep, heq.symm⟩
  · intro hc
    have hb : (q.target == old && q.userId == u) = true := by simp [hc.1, hc.2]
    rw [hb] at hpred
    simp at hpred

theorem mem_healNodeRows {old tgt u : String} {ns : List NodeRow} {n : NodeRow}
    (h : n ∈ healNodeRows old tgt u ns) :
    (n ∈ ns ∧ ¬(n.id = old ∧ n.userId = u)) ∨
      (∃ m ∈ ns, (m.id = old ∧ m.userId = u) ∧ n = { m with id := tgt }) := by
  unfold healNodeRows at h
  split at h
  · obtain ⟨hm, hp⟩ := List.mem_filter.mp h
    refine Or.inl ⟨hm, ?_⟩
    intro hc
    have hb : (n.id == old && n.userId == u) = true := by simp [hc.1, hc.2]
    rw [hb] at hp
    simp at hp
  · obtain ⟨m, hm, heq⟩ := List.mem_map.mp h
    by_cases hmm : m.id = old ∧ m.userId = u
    · refine Or.inr ⟨m, hm, hmm, ?_⟩
      rw [← heq]
      simp [hmm.1, hmm.2]
    · refine Or.inl ?_
      have hn : n = m := by
        rw [← heq]
        have hb : (m.id == old && m.userId == u) = false := by
          rcases not_and_or.mp hmm with hx | hx <;> simp [hx]
        simp [hb]
      subst hn
      exact ⟨hm, hmm⟩

/-- Endpoint freedom established by one healer step for its own row. -/
theorem healVisionStep_clears (p : List NodeRow × List EdgeRow) (r : NodeRow)
    (hro : matchesVisionLike r.id = false) :
    ∀ e ∈ (healVisionStep p r).2,
      ¬(e.userId = r.userId ∧ (e.source = r.id ∨ e.target = r.id)) := by
  intro e he hc
  obtain ⟨horigin, hnt⟩ := mem_rewriteEdgesTarget he
  rcases horigin with h1 | ⟨e2, he2, hcond2, heq2⟩
  · obtain ⟨_, hns⟩ := mem_rewriteEdgesSource h1
    rcases hc.2 with hs | ht
    · exact hns ⟨hs, hc.1⟩
    · exact hnt ⟨ht, hc.1⟩
  · obtain ⟨_, hns2⟩ := mem_rewriteEdgesSource he2
    subst heq2
    rcases hc.2 with hs | ht
    · exact hns2 ⟨hs, hc.1⟩
    · have htgt : ("vision_" ++ r.userId) = r.id := ht
      have := matchesVisionLike_canonical r.userId
      rw [htgt, hro] at this
      cases this

/-- Endpoint freedom for an unprocessed offender row is preserved by the
healer step of another row. -/
theorem healVisionStep_preserves (p : List NodeRow × List EdgeRow)
    (r r₀ : NodeRow) (h₀ : matchesVisionLike r₀.id = false)
    (hP : ∀ e ∈ p.2, ¬(e.userId = r₀.userId ∧ (e.source = r₀.id ∨ e.target = r₀.id))) :
    ∀ e ∈ (healVisionStep p r).2,
      ¬(e.userId = r₀.userId ∧ (e.source = r₀.id ∨ e.target = r₀.id)) := by
  intro e he hc
  obtain ⟨horigin, _⟩ := mem_rewriteEdgesTarget he
  rcases horigin with h1 | ⟨e2, he2, hcond2, heq2⟩
  · obtain ⟨horigin2, _⟩ := mem_rewriteEdgesSource h1
    rcases horigin2 with h2 | ⟨e3, he3, hcond3, heq3⟩
    · exact hP e h2 hc
    · subst heq3
      rcases hc.2 with hs | ht
      · have htgt : ("vision_" ++ r.userId) = r₀.id := hs
        have := matchesVisionLike_canonical r.userId
        rw [htgt, h₀] at this
        cases this
      · exact hP e3 he3 ⟨hc.1, Or.inr ht⟩
  · obtain ⟨horigin2, _⟩ := mem_rewriteEdgesSource he2
    subst heq2
    rcases hc.2 with hs | ht
    · rcases horigin2 with h2 | ⟨e3, he3, hcond3, heq3⟩
      · exact hP e2 h2 ⟨hc.1, Or.inl hs⟩
      · subst heq3
        have htgt : ("vision_" ++ r.userId) = r₀.id := hs
        have := matchesVisionLike_canonical r.userId
        rw [htgt, h₀] at this
        cases this
    · have htgt : ("vision_" ++ r.userId) = r₀.id := ht
      have := matchesVisionLike_canonical r.userId
      rw [htgt, h₀] at this
      cases this

/-- Endpoint freedom survives the remainder of the healer fold. -/
theorem healFold_preserves (rows : List NodeRow) :
    ∀ (p : List NodeRow × List EdgeRow) (r₀ : NodeRow),
    matchesVisionLike r₀.id = false →
    (∀ e ∈ p.2, ¬(e.userId = r₀.userId ∧ (e.source = r₀.id ∨ e.target = r₀.id))) →
    ∀ e ∈ (rows.foldl healVisionStep p).2,
      ¬(e.userId = r₀.userId ∧ (e.source = r₀.id ∨ e.target = r₀.id)) := by
  induction rows with
  | nil => intro p r₀ _ hP; exact hP
  | cons a t ih =>
    intro p r₀ h₀ hP
    exact ih (healVisionStep p a) r₀ h₀ (healVisionStep_preserves p a r₀ h₀ hP)

/-- After the healer fold, every offender row's id has disappeared from the
edge endpoints of its user. -/
theorem healFold_edges_free (rows : List NodeRow) :
    ∀ (p : List NodeRow × List EdgeRow),
    (∀ r ∈ rows, matchesVisionLike r.id = false) →
    ∀ r ∈ rows, ∀ e ∈ (rows.foldl healVisionStep p).2,
      ¬(e.userId = r.userId ∧ (e.source = r.id ∨ e.target = r.id)) := by
  induction rows with
  | nil => intro p _ r hr; cases hr
  | cons a t ih =>
    intro p hrows r hr
    rcases List.mem_cons.mp hr with h1 | h1
    · subst h1
      exact healFold_preserves t (healVisionStep p r) r
        (hrows r (List.mem_cons_self r t))
        (healVisionStep_clears p r (hrows r (List.mem_cons_self r t)))
    · exact ih (healVisionStep p a)
        (fun x hx => hrows x (List.mem_cons_of_mem a hx)) r h1

/-- After the healer fold, every remaining Vision node matches the
`vision_%` pattern, provided the fetched rows cover all offenders. -/
theorem healFold_vision_ids (rows : List NodeRow) :
    ∀ (p : List NodeRow × List EdgeRow),
    (∀ n ∈ p.1, n.type = "Vision" → matchesVisionLike n.id = false →
       ∃ r ∈ rows, r.id = n.id ∧ r.userId = n.userId) →
    ∀ n ∈ (rows.foldl healVisionStep p).1, n.type = "Vision" →
      matchesVisionLike n.id = true := by
  induction rows with
  | nil =>
    intro p hcover n hn htype
    by_contra hm
    simp only [Bool.not_eq_true] at hm
    obtain ⟨r, hr, _⟩ := hcover n hn htype hm
    cases hr
  | cons a t ih =>
    intro p hcover
    apply ih (healVisionStep p a)
    intro n hn htype hm
    rcases mem_healNodeRows hn with ⟨hmem, hnm⟩ | ⟨m, hm2, hcondm, heqn⟩
    · obtain ⟨r, hrmem, hrid, hruid⟩ := hcover n hmem htype hm
      rcases List.mem_cons.mp hrmem with h1 | h1
      · subst h1
        exact absurd ⟨hrid.symm, hruid.symm⟩ hnm
      · exact ⟨r, h1, hrid, hruid⟩
    · subst heqn
      have := matchesVisionLike_canonical a.userId
      rw [this] at hm
      cases hm

theorem healFetch_pred {ns : List NodeRow} {r : NodeRow} (h : r ∈ healFetch ns) :
    r.type = "Vision" ∧ matchesVisionLike r.id = false := by
  obtain ⟨_, hp⟩ := List.mem_filter.mp h
  simp only [Bool.and_eq_true, beq_iff_eq, Bool.not_eq_true'] at hp
  exact hp

theorem mem_healFetch {ns : List NodeRow} {n : NodeRow} (hn : n ∈ ns)
    (ht : n.type = "Vision") (hm : matchesVisionLike n.id = false) :
    n ∈ healFetch ns := by
  refine List.mem_filter.mpr ⟨hn, ?_⟩
  simp [ht, hm]

theorem healVisionStepChecked_edges (p : List NodeRow × List EdgeRow)
    (r : NodeRow) :
    (healVisionStepChecked p r).1.2 = (healVisionStep p r).2 := by
  simp only [healVisionStepChecked]
  split
  · rfl
  · split
    · rfl
    · rfl

theorem healVisionStepChecked_ok_nodes (p : List NodeRow × List EdgeRow)
    (r : NodeRow) (h : (healVisionStepChecked p r).2 = true) :
    (healVisionStepChecked p r).1.1 = (healVisionStep p r).1 := by
  simp only [healVisionStepChecked] at h ⊢
  split at h
  · next h1 =>
    rw [if_pos h1]
    simp only [healVisionStep, healNodeRows]
    rw [if_pos h1]
  · next h1 =>
    split at h
    · next h2 => simp at h
    · next h2 =>
      rw [if_neg h1, if_neg h2]
      simp only [healVisionStep, healNodeRows]
      rw [if_neg h1]

/-- When the healer loop finishes without an abort, its result coincides
with the non-abort fold. -/
theorem healTablesRun_ok_eq (rows : List NodeRow) :
    ∀ p, (healTablesRun rows p).2 = true →
      (healTablesRun rows p).1 = rows.foldl healVisionStep p := by
  induction rows with
  | nil => intro p _; rfl
  | cons r t ih =>
    intro p hok
    by_cases hs : (healVisionStepChecked p r).2 = true
    · have hred : healTablesRun (r :: t) p =
          healTablesRun t (healVisionStepChecked p r).1 := by
        simp only [healTablesRun]
        rw [if_pos hs]
      rw [hred] at hok ⊢
      rw [ih _ hok, List.foldl_cons]
      have h1 : (healVisionStepChecked p r).1 = healVisionStep p r :=
        Prod.ext (healVisionStepChecked_ok_nodes p r hs)
          (healVisionStepChecked_edges p r)
      rw [h1]
    · have hred : healTablesRun (r :: t) p = healVisionStepChecked p r := by
        simp only [healTablesRun]
        rw [if_neg hs]
      rw [hred] at hok
      exact absurd hok hs

theorem healVision_nodes_def (st : StoreState) :
    (healVision st).nodes =
      (healTablesRun (healFetch st.nodes) (st.nodes, st.edges)).1.1 := by
  unfold healVision
  split <;> rfl

theorem healVision_edges_def (st : StoreState) :
    (healVision st).edges =
      (healTablesRun (healFetch st.nodes) (st.nodes, st.edges)).1.2 := by
  unfold healVision
  split <;> rfl

/-! ## C4: the healing pass, settled -/

/-- C4: the claim, amended.  When the canonical healer loop completes
without a UNIQUE-constraint abort (no rename collides with a row already
holding the canonical `vision_{user_id}` id), every Vision node of the
canonical table has an id matching the SQL pattern `vision_%` (at least
seven characters whose first six ASCII-lowercase to `vision` — the `_` of
the pattern is a single-character wildcard and `LIKE` is ASCII
case-insensitive), and no canonical edge of the owning user still references
the id of a healed Vision node; when the staging loop also completes, the
same holds for the staging mirror; when the canonical loop aborts, the
staging tables are not processed at all.  `Self` nodes are not healed by
this pass, and Vision nodes whose id already matches `vision_%` — even when
it differs from the canonical `vision_{user_id}` — are left untouched, so
several `Self` rows or several pattern-matching Vision rows may survive
(see the counterexample). -/
theorem healVision_normalizes :
    ∀ st : StoreState,
    ((healTablesRun (healFetch st.nodes) (st.nodes, st.edges)).2 = true →
       (∀ n ∈ (healVision st).nodes, n.type = "Vision" →
          matchesVisionLike n.id = true) ∧
       (∀ r ∈ healFetch st.nodes, ∀ e ∈ (healVision st).edges,
          ¬(e.userId = r.userId ∧ (e.source = r.id ∨ e.target = r.id)))) ∧
    ((healTablesRun (healFetch st.nodes) (st.nodes, st.edges)).2 = true →
     (healTablesRun (healFetch st.stagingNodes)
        (st.stagingNodes, st.stagingEdges)).2 = true →
       (∀ n ∈ (healVision st).stagingNodes, n.type = "Vision" →
          matchesVisionLike n.id = true) ∧
       (∀ r ∈ healFetch st.stagingNodes, ∀ e ∈ (healVision st).stagingEdges,
          ¬(e.userId = r.userId ∧ (e.source = r.id ∨ e.target = r.id)))) ∧
    ((healTablesRun (healFetch st.nodes) (st.nodes, st.edges)).2 = false →
       (healVision st).stagingNodes = st.stagingNodes ∧
       (healVision st).stagingEdges = st.stagingEdges) := by
  intro st
  refine ⟨?_, ?_, ?_⟩
  · intro hc
    constructor
    · rw [healVision_nodes_def, healTablesRun_ok_eq _ _ hc]
      apply healFold_vision_ids
      intro n hn ht hm
      exact ⟨n, mem_healFetch hn ht hm, rfl, rfl⟩
    · rw [healVision_edges_def, healTablesRun_ok_eq _ _ hc]
      exact healFold_edges_free _ _ (fun r hr => (healFetch_pred hr).2)
  · intro hc hs
    have hsn : (healVision st).stagingNodes =
        (healTablesRun (healFetch st.stagingNodes)
          (st.stagingNodes, st.stagingEdges)).1.1 := by
      unfold healVision
      rw [if_pos hc]
    have hse : (healVision st).stagingEdges =
        (healTablesRun (healFetch st.stagingNodes)
          (st.stagingNodes, st.stagingEdges)).1.2 := by
      unfold healVision
      rw [if_pos hc]
    constructor
    · rw [hsn, healTablesRun_ok_eq _ _ hs]
      apply healFold_vision_ids
      intro n hn ht hm
      exact ⟨n, mem_healFetch hn ht hm, rfl, rfl⟩
    · rw [hse, healTablesRun_ok_eq _ _ hs]
      exact healFold_edges_free _ _ (fun r hr => (healFetch_pred hr).2)
  · intro hc
    have hneg : ¬((healTablesRun (healFetch st.nodes) (st.nodes, st.edges)).2
        = true) := by simp [hc]
    constructor
    · unfold healVision
      rw [if_neg hneg]
    · unfold healVision
      rw [if_neg hneg]

set_option maxRecDepth 10000 in
/-- C4 witness: the amended theorem applied to the concrete healable state —
the canonical loop completes (flag `true`), the renamed node is in the
healed table and its id matches `vision_%`. -/
theorem healVision_normalizes_witness :
    (healTablesRun (healFetch healableVision.nodes)
      (healableVision.nodes, healableVision.edges)).2 = true ∧
    (⟨"vision_u9", "u9", "Vision", "V", "", "\x7b\x7d", "confirmed", "", 1⟩ : NodeRow) ∈
      (healVision healableVision).nodes ∧
    matchesVisionLike
      (⟨"vision_u9", "u9", "Vision", "V", "", "\x7b\x7d", "confirmed", "", 1⟩ :
        NodeRow).id = true :=
  ⟨by decide, by decide,
   ((healVision_normalizes healableVision).1 (by decide)).1
     ⟨"vision_u9", "u9", "Vision", "V", "", "\x7b\x7d", "confirmed", "", 1⟩
     (by decide) rfl⟩

/-! ## C10: add_to_staging invariants -/

/-- C10: confirmed as the code behaves.  `add_to_staging` never inserts a
`Self`-typed row nor one carrying the sentinel id into `staging_nodes`
(a `Self`-typed or sentinel-id node is skipped, except that a Vision-typed
node is id-rewritten first, which also eliminates the sentinel); every
Vision-typed input is staged under `vision_{user_id}`; and every staged edge
is inserted with `SELF_NODE_ID` endpoints mapped back to `user_id`. -/
theorem addToStaging_invariants :
    ∀ (u sf : String) (nodes : List InNode) (edges : List InEdge) (st : StoreState),
    ((∀ r ∈ st.stagingNodes, r.type ≠ "Self" ∧ r.id ≠ "SELF_NODE_ID") →
      ∀ r ∈ (addToStaging u nodes edges sf st).stagingNodes,
        r.type ≠ "Self" ∧ r.id ≠ "SELF_NODE_ID") ∧
    (∀ n ∈ nodes, n.type = "Self" → stageNodeRow u sf n = none) ∧
    (∀ n ∈ nodes, n.id = "SELF_NODE_ID" → n.type ≠ "Vision" →
       stageNodeRow u sf n = none) ∧
    (∀ n ∈ nodes, n.type = "Vision" →
       stageNodeRow u sf n =
         some ⟨"vision_" ++ u, u, n.type, n.name, n.content, n.attributes,
           "pending", sf, 0⟩) ∧
    (∀ e ∈ edges, ∃ q ∈ (addToStaging u nodes edges sf st).stagingEdges,
       q.source = (if e.source == "SELF_NODE_ID" then u else e.source) ∧
       q.target = (if e.target == "SELF_NODE_ID" then u else e.target) ∧
       q.relation = e.relation ∧ q.userId = u) := by
  intro u sf nodes edges st
  refine ⟨?_, ?_, ?_, ?_, ?_⟩
  · intro hold r hr
    rcases upsertNodesFold_mem hr with h1 | h1
    · exact hold r h1
    · obtain ⟨n, _, hrow⟩ := List.mem_filterMap.mp h1
      unfold stageNodeRow at hrow
      split at hrow
      · next hv =>
        injection hrow with hrow
        subst hrow
        refine ⟨?_, visionId_ne_sentinel u⟩
        show n.type ≠ "Self"
        have hv' : n.type = "Vision" := by simpa using hv
        rw [hv']
        decide
      · split at hrow
        · cases hrow
        · next hskip =>
          injection hrow with hrow
          subst hrow
          simp only [Bool.or_eq_true, beq_iff_eq, not_or] at hskip
          exact ⟨hskip.1, hskip.2⟩
  · intro n _ ht
    unfold stageNodeRow
    rw [if_neg (by simp [ht]), if_pos (by simp [ht])]
  · intro n _ hid ht
    unfold stageNodeRow
    rw [if_neg (by simpa using ht), if_pos (by simp [hid])]
  · intro n _ ht
    unfold stageNodeRow
    rw [if_pos (by simp [ht])]
  · intro e he
    have hmap : stageEdgeRow u e ∈ edges.map (stageEdgeRow u) :=
      List.mem_map.mpr ⟨e, he, rfl⟩
    obtain ⟨q, hq, hk⟩ := insertEdgesFold_key _ st.stagingEdges hmap
    obtain ⟨h1, h2, h3, h4⟩ := edgeKeyEq_iff.mp hk
    exact ⟨q, hq, h1.symm, h2.symm, h3.symm, h4.symm⟩

/-- C10 witness: the invariants applied to the concrete batch on the empty
store — the staged Vision row carries the canonical id and is neither
Self-typed nor sentinel-identified. -/
theorem addToStaging_invariants_witness :
    (⟨"vision_" ++ "u1", "u1", "Vision", "v", "c", "\x7b\x7d", "pending", "f", 0⟩ :
        NodeRow) ∈
      (addToStaging "u1" stagingBatchNodes stagingBatchEdges "f"
        emptyStore).stagingNodes ∧
    ((⟨"vision_" ++ "u1", "u1", "Vision", "v", "c", "\x7b\x7d", "pending", "f", 0⟩ :
        NodeRow).type ≠ "Self" ∧
     (⟨"vision_" ++ "u1", "u1", "Vision", "v", "c", "\x7b\x7d", "pending", "f", 0⟩ :
        NodeRow).id ≠ "SELF_NODE_ID") :=
  ⟨by decide,
   (addToStaging_invariants "u1" "f" stagingBatchNodes stagingBatchEdges
      emptyStore).1 (fun r hr => absurd hr (List.not_mem_nil r))
     ⟨"vision_" ++ "u1", "u1", "Vision", "v", "c", "\x7b\x7d", "pending", "f", 0⟩
     (by decide)⟩

end EndgameOS
